import Mathlib

/-!
Formal model of the SqlDiffHighlighter repository.

The core logic lives in `src/components/SQLDiffHighlighter.tsx`
(tokenizer `splitText`, aligner `computeDiff`, grouper `groupDiffBlocks`,
derived `diffResult`, `stats`, and the clipboard handler `handleCopy`);
a second variant of the widget in `src/unnamed/part_000` has its own
`splitText`.  Strings are modelled as Lean `String`s, token sequences as
`List String`, and the while-loops of the source as structural recursions
over the remaining tokens.
-/

namespace SqlDiff

/-- Granularity selector, `type ComparisonType` in the source. -/
inductive ComparisonType
  | Lines
  | Words
  | Characters
deriving DecidableEq, Repr

/-- The characters matched by the JavaScript regex character class `\s`
(used by the Words tokenizers): tab, line feed, vertical tab, form feed,
carriage return, space, and the Unicode space characters. -/
def jsWhitespace (c : Char) : Bool :=
  c == '\t' || c == '\n' || c.val == 11 || c.val == 12 || c == '\r' || c == ' ' ||
    c.val == 0xa0 || c.val == 0x1680 || (0x2000 ≤ c.val && c.val ≤ 0x200a) ||
    c.val == 0x2028 || c.val == 0x2029 || c.val == 0x202f || c.val == 0x205f ||
    c.val == 0x3000 || c.val == 0xfeff

/-- Helper for `wsRuns`: `cur` is the current (reversed, nonempty) run of
characters of one whitespace class; each incoming character extends the run
when its `jsWhitespace` class agrees with the run's and closes it otherwise. -/
def runsAux : List Char → List Char → List (List Char)
  | cur, [] => [cur.reverse]
  | cur, c :: cs =>
    match cur with
    | [] => runsAux [c] cs
    | d :: _ =>
      if jsWhitespace c = jsWhitespace d then runsAux (c :: cur) cs
      else cur.reverse :: runsAux [c] cs

/-- The maximal runs of characters of constant `jsWhitespace` class, in order.
JavaScript `text.split(/(\s+)/)` returns the chunks between maximal
whitespace runs interleaved with the captured whitespace runs themselves;
the only empty chunks arise next to a leading or trailing whitespace run, so
after the source's `.filter((part) => part.length > 0)` exactly these
maximal runs remain. -/
def wsRuns : List Char → List (List Char)
  | [] => []
  | c :: cs => runsAux [c] cs

/-- JavaScript `text.split("\n")`: the segments between newline characters,
with empty segments preserved; the empty string yields `[""]` (one empty
segment), matching `"".split("\n")`. -/
def splitLinesList : List Char → List (List Char)
  | [] => [[]]
  | c :: cs =>
    if c = '\n' then [] :: splitLinesList cs
    else
      match splitLinesList cs with
      | [] => [[c]]
      | t :: ts => (c :: t) :: ts

/-- Tokenizer of `src/components/SQLDiffHighlighter.tsx` (lines 32–43):
Lines is `text.split("\n")`; Words is `text.split(/(\s+)/)` followed by
`.filter((part) => part.length > 0)` — the capturing group keeps the
whitespace separators, so the surviving pieces are the maximal runs of
`wsRuns`; Characters is `text.split("")`, one token per character. -/
def splitText (text : String) (ct : ComparisonType) : List String :=
  match ct with
  | .Lines => (splitLinesList text.data).map String.mk
  | .Words => ((wsRuns text.data).map String.mk).filter (fun part => part.length > 0)
  | .Characters => text.data.map (fun c => String.mk [c])

/-- Tokenizer of the second widget variant, `src/unnamed/part_000`
(lines 21–32): identical to `splitText` except at Words granularity, where
the source splits with `text.split(/\s+/)` (no capturing group) and filters
zero-length pieces, leaving exactly the maximal non-whitespace runs. -/
def splitTextVariant (text : String) (ct : ComparisonType) : List String :=
  match ct with
  | .Lines => (splitLinesList text.data).map String.mk
  | .Words =>
    (((wsRuns text.data).filter
        (fun r =>
          match r with
          | [] => false
          | c :: _ => !jsWhitespace c)).map String.mk).filter
      (fun word => word.length > 0)
  | .Characters => text.data.map (fun c => String.mk [c])

/-- A string containing no JavaScript whitespace character. -/
def wsFree (s : String) : Bool :=
  s.data.all (fun c => !jsWhitespace c)

/-- Classification of an aligned pair, the `type` field of `DiffLine`. -/
inductive DiffType
  | added
  | removed
  | modified
  | unchanged
deriving DecidableEq, Repr

/-- `interface DiffLine` of the source: one classified token pair with the
per-side position counters attached at emission time. -/
structure DiffLine where
  type : DiffType
  originalContent : String
  modifiedContent : String
  originalLineNumber : Nat
  modifiedLineNumber : Nat
deriving DecidableEq, Repr

/-- The tail of the `computeDiff` while-loop once the original cursor is
exhausted (source lines 57–67): every remaining modified token is emitted as
an `added` pair with empty original content, with only the modified-side
counter advancing (and only when `ct` is Lines). -/
def addedRun (ct : ComparisonType) : List String → Nat → Nat → List DiffLine
  | [], _, _ => []
  | m :: ms, origNum, modNum =>
    { type := .added, originalContent := "", modifiedContent := m,
      originalLineNumber := origNum, modifiedLineNumber := modNum } ::
      addedRun ct ms origNum (if ct = .Lines then modNum + 1 else modNum)

/-- The while-loop of `computeDiff` (source lines 53–110), recursing on the
tokens not yet consumed by the two cursors, with the two position counters
threaded through; counters increment only when `ct` is Lines, exactly as in
the source's `if (comparisonType === "Lines")` guards.  Once the original
side is exhausted the loop can only take its `added` branch, which is the
tail `addedRun`; the `removed` branch keeps recursing here with the
modified side empty. -/
def computeDiffAux (ct : ComparisonType) :
    List String → List String → Nat → Nat → List DiffLine
  | [], modified, origNum, modNum => addedRun ct modified origNum modNum
  | o :: os, [], origNum, modNum =>
    { type := .removed, originalContent := o, modifiedContent := "",
      originalLineNumber := origNum, modifiedLineNumber := modNum } ::
      computeDiffAux ct os [] (if ct = .Lines then origNum + 1 else origNum) modNum
  | o :: os, m :: ms, origNum, modNum =>
    if o = m then
      { type := .unchanged, originalContent := o, modifiedContent := m,
        originalLineNumber := origNum, modifiedLineNumber := modNum } ::
        computeDiffAux ct os ms (if ct = .Lines then origNum + 1 else origNum)
          (if ct = .Lines then modNum + 1 else modNum)
    else
      { type := .modified, originalContent := o, modifiedContent := m,
        originalLineNumber := origNum, modifiedLineNumber := modNum } ::
        computeDiffAux ct os ms (if ct = .Lines then origNum + 1 else origNum)
          (if ct = .Lines then modNum + 1 else modNum)

/-- `computeDiff` of the source (lines 46–113): both cursors start at index
zero and both position counters at 1. -/
def computeDiff (ct : ComparisonType) (original modified : List String) :
    List DiffLine :=
  computeDiffAux ct original modified 1 1

/-- The aligner step rule exactly as the specification and claim C2 word it
(granularities and position counters are not part of this wording): when the
original side is exhausted emit `added` with the current modified token and
empty original content, advancing only the modified cursor; when the
modified side is exhausted emit `removed` symmetrically; when the tokens at
both cursors are identical emit `unchanged` and advance both; otherwise emit
`modified` pairing the two tokens and advance both. -/
def alignSpec (original modified : List String) : List (DiffType × String × String) :=
  match original, modified with
  | [], [] => []
  | [], m :: ms => (.added, "", m) :: alignSpec [] ms
  | o :: os, [] => (.removed, o, "") :: alignSpec os []
  | o :: os, m :: ms =>
    if o = m then (.unchanged, o, m) :: alignSpec os ms
    else (.modified, o, m) :: alignSpec os ms
termination_by original.length + modified.length

/-- Coarse category of a pair, the source's
`isChanged = line.type !== "unchanged"` rendered as a block type. -/
inductive BlockType
  | changed
  | unchanged
deriving DecidableEq, Repr

/-- `interface DiffBlock` of the source. -/
structure DiffBlock where
  type : BlockType
  lines : List DiffLine
  startLine : Nat
  endLine : Nat
deriving DecidableEq, Repr

/-- The coarse category used by the grouper. -/
def coarse (l : DiffLine) : BlockType :=
  if l.type = .unchanged then .unchanged else .changed

/-- The fresh one-line block the source pushes when the coarse category
changes: both bounds are the line's original-side position. -/
def startBlock (l : DiffLine) : DiffBlock :=
  { type := coarse l, lines := [l], startLine := l.originalLineNumber,
    endLine := l.originalLineNumber }

/-- The loop body of `groupDiffBlocks`: `b` is the currently open block; a
line of the same coarse category is appended to it (extending `endLine`),
a line of the other category closes `b` and opens a fresh block, exactly as
the source's push-or-start-new branches (lines 120–154). -/
def groupAux : DiffBlock → List DiffLine → List DiffBlock
  | b, [] => [b]
  | b, l :: ls =>
    if coarse l = b.type then
      groupAux { b with lines := b.lines ++ [l], endLine := l.originalLineNumber } ls
    else
      b :: groupAux (startBlock l) ls

/-- `groupDiffBlocks` of the source (lines 116–157): `currentBlock` starts
null, so the first line always opens a block. -/
def groupDiffBlocks : List DiffLine → List DiffBlock
  | [] => []
  | l :: ls => groupAux (startBlock l) ls

/-- The `diffResult` memo of the source (lines 159–167): when both inputs
are empty (JavaScript-falsy) it returns `[]` without tokenizing; otherwise
it tokenizes both texts, aligns them and groups the result. -/
def diffResult (originalSQL modifiedSQL : String) (ct : ComparisonType) :
    List DiffBlock :=
  if originalSQL = "" ∧ modifiedSQL = "" then []
  else groupDiffBlocks (computeDiff ct (splitText originalSQL ct) (splitText modifiedSQL ct))

/-- The aggregate counts of the `stats` memo (source lines 272–284). -/
structure Stats where
  added : Nat
  removed : Nat
  modified : Nat
deriving DecidableEq, Repr

/-- `stats` of the source: per-type pair counts summed over all blocks. -/
def stats (blocks : List DiffBlock) : Stats :=
  { added := blocks.foldl
      (fun acc b => acc + (b.lines.filter (fun l => l.type == DiffType.added)).length) 0,
    removed := blocks.foldl
      (fun acc b => acc + (b.lines.filter (fun l => l.type == DiffType.removed)).length) 0,
    modified := blocks.foldl
      (fun acc b => acc + (b.lines.filter (fun l => l.type == DiffType.modified)).length) 0 }

/-- Outcome of the browser clipboard write: the promise returned by
`navigator.clipboard.writeText` either resolves or rejects with an error. -/
inductive ClipboardResult
  | ok
  | error (msg : String)
deriving DecidableEq, Repr

/-- `handleCopy` of the source (lines 169–177), with the clipboard write on
`text` modelled as an injected outcome: the `try`/`catch` maps a resolved
write to the success alert and a rejected one to the failure alert; no
exception escapes. The returned string is the alert text shown to the
user. -/
def handleCopy (text : String) (result : ClipboardResult) : String :=
  match text, result with
  | _, .ok => "Copied to clipboard!"
  | _, .error _ => "Failed to copy to clipboard"

/-- The component state relevant to the diff computation (the `useState`
hooks of the source). -/
structure ComponentState where
  originalSQL : String
  modifiedSQL : String
  comparisonType : ComparisonType
  showUnchanged : Bool
deriving DecidableEq, Repr

/-- A copy interaction as observed from the component: `handleCopy` calls
no state setter, so the component state after the interaction is the state
before it, paired with the alert produced by `handleCopy`. -/
def copyAction (st : ComponentState) (text : String) (result : ClipboardResult) :
    ComponentState × String :=
  (st, handleCopy text result)

/-- The position-counter discipline of claim C8 at Lines granularity: inside
a pair sequence the original-side counter of the `k`-th pair is `onum` plus
the number of earlier pairs that advanced the original cursor (every pair
except `added` ones), and the modified-side counter is `mnum` plus the
number of earlier pairs that advanced the modified cursor (every pair
except `removed` ones). -/
def countersOk (onum mnum : Nat) (l : List DiffLine) : Prop :=
  ∀ (k : Nat) (hk : k < l.length),
    (l.get ⟨k, hk⟩).originalLineNumber
        = onum + ((l.take k).countP (fun p => p.type != DiffType.added)) ∧
    (l.get ⟨k, hk⟩).modifiedLineNumber
        = mnum + ((l.take k).countP (fun p => p.type != DiffType.removed))

/-! ## Helper lemmas -/

theorem addedRun_proj (ct : ComparisonType) :
    ∀ (ms : List String) (onum mnum : Nat),
      (addedRun ct ms onum mnum).map
          (fun p => (p.type, p.originalContent, p.modifiedContent))
        = alignSpec [] ms := by
  intro ms
  induction ms with
  | nil => intro onum mnum; simp [addedRun, alignSpec]
  | cons m ms ih => intro onum mnum; simp [addedRun, alignSpec, ih]

theorem computeDiffAux_proj (ct : ComparisonType) :
    ∀ (original modified : List String) (onum mnum : Nat),
      (computeDiffAux ct original modified onum mnum).map
          (fun p => (p.type, p.originalContent, p.modifiedContent))
        = alignSpec original modified := by
  intro original
  induction original with
  | nil => intro modified onum mnum; exact addedRun_proj ct modified onum mnum
  | cons o os iho =>
    intro modified onum mnum
    cases modified with
    | nil => simp [computeDiffAux, alignSpec, iho]
    | cons m ms =>
      by_cases h : o = m
      · simp [computeDiffAux, alignSpec, h, iho]
      · simp [computeDiffAux, alignSpec, h, iho]

theorem computeDiffAux_diag (ct : ComparisonType) :
    ∀ (l : List String) (onum mnum : Nat),
      ∀ p ∈ computeDiffAux ct l l onum mnum, p.type = DiffType.unchanged := by
  intro l
  induction l with
  | nil => intro onum mnum p hp; simp [computeDiffAux, addedRun] at hp
  | cons x xs ih =>
    intro onum mnum p hp
    simp only [computeDiffAux, if_pos rfl] at hp
    rcases List.mem_cons.mp hp with h1 | h2
    · subst h1; rfl
    · exact ih _ _ p h2

theorem addedRun_length (ct : ComparisonType) :
    ∀ (ms : List String) (onum mnum : Nat),
      (addedRun ct ms onum mnum).length = ms.length := by
  intro ms
  induction ms with
  | nil => intro onum mnum; rfl
  | cons m ms ih => intro onum mnum; simp [addedRun, ih]

theorem computeDiffAux_length (ct : ComparisonType) :
    ∀ (original modified : List String) (onum mnum : Nat),
      (computeDiffAux ct original modified onum mnum).length
        = max original.length modified.length := by
  intro original
  induction original with
  | nil =>
    intro modified onum mnum
    simp [computeDiffAux, addedRun_length]
  | cons o os iho =>
    intro modified onum mnum
    cases modified with
    | nil =>
      simp [computeDiffAux, iho]
    | cons m ms =>
      by_cases h : o = m
      · simp [computeDiffAux, h, iho]
        omega
      · simp [computeDiffAux, h, iho]
        omega

theorem runsAux_homogeneous :
    ∀ (rest cur : List Char) (b : Bool), cur ≠ [] →
      (∀ a ∈ cur, jsWhitespace a = b) →
      ∀ r ∈ runsAux cur rest, r ≠ [] ∧ ∃ c, ∀ a ∈ r, jsWhitespace a = c := by
  intro rest
  induction rest with
  | nil =>
    intro cur b hne hcl r hr
    simp only [runsAux, List.mem_singleton] at hr
    subst hr
    refine ⟨by simpa using hne, b, ?_⟩
    intro a ha
    exact hcl a (List.mem_reverse.mp ha)
  | cons c cs ih =>
    intro cur b hne hcl r hr
    cases cur with
    | nil => exact absurd rfl hne
    | cons d ds =>
      simp only [runsAux] at hr
      by_cases hcd : jsWhitespace c = jsWhitespace d
      · rw [if_pos hcd] at hr
        refine ih (c :: d :: ds) b (by simp) ?_ r hr
        intro a ha
        rcases List.mem_cons.mp ha with h1 | h2
        · subst h1
          exact hcd.trans (hcl d (by simp))
        · exact hcl a h2
      · rw [if_neg hcd] at hr
        rcases List.mem_cons.mp hr with h1 | h2
        · subst h1
          refine ⟨by simp, b, ?_⟩
          intro a ha
          exact hcl a (List.mem_reverse.mp ha)
        · exact ih [c] (jsWhitespace c) (by simp) (by simp) r h2

theorem wsRuns_homogeneous (l : List Char) :
    ∀ r ∈ wsRuns l, r ≠ [] ∧ ∃ c, ∀ a ∈ r, jsWhitespace a = c := by
  intro r hr
  cases l with
  | nil => simp [wsRuns] at hr
  | cons c cs =>
    exact runsAux_homogeneous cs [c] (jsWhitespace c) (by simp) (by simp) r hr

theorem mem_length_filter_ne_empty {t : String} {l : List String}
    (h : t ∈ l.filter (fun part => part.length > 0)) : t ≠ "" := by
  have hp := List.of_mem_filter h
  intro he
  subst he
  simp at hp

theorem addedRun_origContents (ct : ComparisonType) :
    ∀ (ms : List String) (onum mnum : Nat),
      ((addedRun ct ms onum mnum).map (fun p => p.originalContent)).filter
          (fun s => s ≠ "")
        = [] := by
  intro ms
  induction ms with
  | nil => intro onum mnum; rfl
  | cons m ms ih =>
    intro onum mnum
    simp only [addedRun, List.map_cons, List.filter_cons]
    rw [if_neg (by simp)]
    exact ih _ _

theorem addedRun_modContents (ct : ComparisonType) :
    ∀ (ms : List String) (onum mnum : Nat), (∀ t ∈ ms, t ≠ "") →
      ((addedRun ct ms onum mnum).map (fun p => p.modifiedContent)).filter
          (fun s => s ≠ "")
        = ms := by
  intro ms
  induction ms with
  | nil => intro onum mnum h; rfl
  | cons m ms ih =>
    intro onum mnum h
    have hm : m ≠ "" := h m (by simp)
    simp only [addedRun, List.map_cons, List.filter_cons]
    rw [if_pos (by simpa using hm)]
    rw [ih _ _ (fun t ht => h t (by simp [ht]))]

theorem computeDiffAux_origContents (ct : ComparisonType) :
    ∀ (original modified : List String) (onum mnum : Nat),
      (∀ t ∈ original, t ≠ "") →
      ((computeDiffAux ct original modified onum mnum).map
          (fun p => p.originalContent)).filter (fun s => s ≠ "")
        = original := by
  intro original
  induction original with
  | nil => intro modified onum mnum h; exact addedRun_origContents ct modified onum mnum
  | cons o os iho =>
    intro modified onum mnum h
    have ho : o ≠ "" := h o (by simp)
    have hos : ∀ t ∈ os, t ≠ "" := fun t ht => h t (by simp [ht])
    cases modified with
    | nil =>
      simp only [computeDiffAux, List.map_cons, List.filter_cons]
      rw [if_pos (by simpa using ho)]
      rw [iho [] _ _ hos]
    | cons m ms =>
      by_cases hom : o = m
      · simp only [computeDiffAux, if_pos hom, List.map_cons, List.filter_cons]
        rw [if_pos (by simpa using ho)]
        rw [iho ms _ _ hos]
      · simp only [computeDiffAux, if_neg hom, List.map_cons, List.filter_cons]
        rw [if_pos (by simpa using ho)]
        rw [iho ms _ _ hos]

theorem computeDiffAux_modContents (ct : ComparisonType) :
    ∀ (original modified : List String) (onum mnum : Nat),
      (∀ t ∈ modified, t ≠ "") →
      ((computeDiffAux ct original modified onum mnum).map
          (fun p => p.modifiedContent)).filter (fun s => s ≠ "")
        = modified := by
  intro original
  induction original with
  | nil => intro modified onum mnum h; exact addedRun_modContents ct modified onum mnum h
  | cons o os iho =>
    intro modified onum mnum h
    cases modified with
    | nil =>
      simp only [computeDiffAux, List.map_cons, List.filter_cons]
      rw [if_neg (by simp)]
      rw [iho [] _ _ (by simp)]
    | cons m ms =>
      have hm : m ≠ "" := h m (by simp)
      have hms : ∀ t ∈ ms, t ≠ "" := fun t ht => h t (by simp [ht])
      by_cases hom : o = m
      · simp only [computeDiffAux, if_pos hom, List.map_cons, List.filter_cons]
        rw [if_pos (by simpa using hm)]
        rw [iho ms _ _ hms]
      · simp only [computeDiffAux, if_neg hom, List.map_cons, List.filter_cons]
        rw [if_pos (by simpa using hm)]
        rw [iho ms _ _ hms]

theorem addedRun_all_added (ct : ComparisonType) :
    ∀ (ms : List String) (onum mnum : Nat),
      ∀ p ∈ addedRun ct ms onum mnum, p.type = DiffType.added := by
  intro ms
  induction ms with
  | nil => intro onum mnum p hp; simp [addedRun] at hp
  | cons m ms ih =>
    intro onum mnum p hp
    rcases List.mem_cons.mp hp with h1 | h2
    · subst h1; rfl
    · exact ih _ _ p h2

theorem computeDiffAux_all_removed (ct : ComparisonType) :
    ∀ (original : List String) (onum mnum : Nat),
      ∀ p ∈ computeDiffAux ct original [] onum mnum,
        p.type = DiffType.removed := by
  intro original
  induction original with
  | nil => intro onum mnum p hp; simp [computeDiffAux, addedRun] at hp
  | cons o os ih =>
    intro onum mnum p hp
    rcases List.mem_cons.mp hp with h1 | h2
    · subst h1; rfl
    · exact ih _ _ p h2

theorem groupAux_flatten :
    ∀ (ls : List DiffLine) (b : DiffBlock),
      ((groupAux b ls).map (fun blk => blk.lines)).flatten = b.lines ++ ls := by
  intro ls
  induction ls with
  | nil => intro b; simp [groupAux]
  | cons l ls ih =>
    intro b
    by_cases h : coarse l = b.type
    · simp only [groupAux, if_pos h]
      rw [ih]
      simp
    · simp only [groupAux, if_neg h, List.map_cons, List.flatten_cons]
      rw [ih]
      simp [startBlock]

theorem countersOk_cons (p : DiffLine) (rest : List DiffLine) (onum mnum : Nat)
    (hpo : p.originalLineNumber = onum) (hpm : p.modifiedLineNumber = mnum)
    (hrest : countersOk (onum + (if p.type = DiffType.added then 0 else 1))
      (mnum + (if p.type = DiffType.removed then 0 else 1)) rest) :
    countersOk onum mnum (p :: rest) := by
  intro k hk
  match k with
  | 0 => simp [hpo, hpm]
  | k + 1 =>
    have hk2 : k < rest.length := Nat.lt_of_succ_lt_succ hk
    have hr := hrest k hk2
    constructor
    · rw [show (p :: rest).get ⟨k + 1, hk⟩ = rest.get ⟨k, hk2⟩ from rfl]
      rw [hr.1]
      simp only [List.take_succ_cons, List.countP_cons]
      by_cases hpt : p.type = DiffType.added
      · simp [hpt]
      · have : (p.type != DiffType.added) = true := by
          simpa using hpt
        simp [hpt, this]
        omega
    · rw [show (p :: rest).get ⟨k + 1, hk⟩ = rest.get ⟨k, hk2⟩ from rfl]
      rw [hr.2]
      simp only [List.take_succ_cons, List.countP_cons]
      by_cases hpt : p.type = DiffType.removed
      · simp [hpt]
      · have : (p.type != DiffType.removed) = true := by
          simpa using hpt
        simp [hpt, this]
        omega

theorem addedRun_countersOk :
    ∀ (ms : List String) (onum mnum : Nat),
      countersOk onum mnum (addedRun ComparisonType.Lines ms onum mnum) := by
  intro ms
  induction ms with
  | nil => intro onum mnum k hk; simp [addedRun] at hk
  | cons m ms ih =>
    intro onum mnum
    simp only [addedRun, if_pos rfl]
    refine countersOk_cons _ _ _ _ rfl rfl ?_
    simpa using ih onum (mnum + 1)

theorem computeDiffAux_countersOk :
    ∀ (original modified : List String) (onum mnum : Nat),
      countersOk onum mnum
        (computeDiffAux ComparisonType.Lines original modified onum mnum) := by
  intro original
  induction original with
  | nil => intro modified onum mnum; exact addedRun_countersOk modified onum mnum
  | cons o os ih =>
    intro modified onum mnum
    cases modified with
    | nil =>
      simp only [computeDiffAux, if_pos rfl]
      refine countersOk_cons _ _ _ _ rfl rfl ?_
      simpa using ih [] (onum + 1) mnum
    | cons m ms =>
      by_cases hom : o = m
      · simp only [computeDiffAux, if_pos hom, if_pos rfl]
        refine countersOk_cons _ _ _ _ rfl rfl ?_
        simpa using ih ms (onum + 1) (mnum + 1)
      · simp only [computeDiffAux, if_neg hom, if_pos rfl]
        refine countersOk_cons _ _ _ _ rfl rfl ?_
        simpa using ih ms (onum + 1) (mnum + 1)

theorem addedRun_numbers_const (ct : ComparisonType) (hct : ct ≠ ComparisonType.Lines) :
    ∀ (ms : List String) (onum mnum : Nat),
      ∀ p ∈ addedRun ct ms onum mnum,
        p.originalLineNumber = onum ∧ p.modifiedLineNumber = mnum := by
  intro ms
  induction ms with
  | nil => intro onum mnum p hp; simp [addedRun] at hp
  | cons m ms ih =>
    intro onum mnum p hp
    rcases List.mem_cons.mp hp with h1 | h2
    · subst h1; exact ⟨rfl, rfl⟩
    · rw [if_neg hct] at h2
      exact ih _ _ p h2

theorem computeDiffAux_numbers_const (ct : ComparisonType)
    (hct : ct ≠ ComparisonType.Lines) :
    ∀ (original modified : List String) (onum mnum : Nat),
      ∀ p ∈ computeDiffAux ct original modified onum mnum,
        p.originalLineNumber = onum ∧ p.modifiedLineNumber = mnum := by
  intro original
  induction original with
  | nil =>
    intro modified onum mnum p hp
    exact addedRun_numbers_const ct hct modified onum mnum p hp
  | cons o os ih =>
    intro modified onum mnum p hp
    cases modified with
    | nil =>
      rcases List.mem_cons.mp hp with h1 | h2
      · subst h1; exact ⟨rfl, rfl⟩
      · rw [if_neg hct] at h2
        exact ih _ _ _ p h2
    | cons m ms =>
      by_cases hom : o = m
      · rw [show computeDiffAux ct (o :: os) (m :: ms) onum mnum
            = { type := .unchanged, originalContent := o, modifiedContent := m,
                originalLineNumber := onum, modifiedLineNumber := mnum } ::
              computeDiffAux ct os ms (if ct = .Lines then onum + 1 else onum)
                (if ct = .Lines then mnum + 1 else mnum) from by
          simp [computeDiffAux, hom]] at hp
        rcases List.mem_cons.mp hp with h1 | h2
        · subst h1; exact ⟨rfl, rfl⟩
        · rw [if_neg hct, if_neg hct] at h2
          exact ih _ _ _ p h2
      · rw [show computeDiffAux ct (o :: os) (m :: ms) onum mnum
            = { type := .modified, originalContent := o, modifiedContent := m,
                originalLineNumber := onum, modifiedLineNumber := mnum } ::
              computeDiffAux ct os ms (if ct = .Lines then onum + 1 else onum)
                (if ct = .Lines then mnum + 1 else mnum) from by
          simp [computeDiffAux, hom]] at hp
        rcases List.mem_cons.mp hp with h1 | h2
        · subst h1; exact ⟨rfl, rfl⟩
        · rw [if_neg hct, if_neg hct] at h2
          exact ih _ _ _ p h2

/-! ## Claim theorems -/

/-- C2: the aligner walks two cursors from position zero, emitting `added`
with empty original content when the original side is exhausted (advancing
only the modified cursor), `removed` symmetrically, `unchanged` when the
tokens at both cursors are identical, and `modified` otherwise (advancing
both cursors); projecting the emitted pairs to their classification and
contents yields exactly this step relation. -/
theorem C2_aligner_follows_step_rule (ct : ComparisonType)
    (original modified : List String) :
    (computeDiff ct original modified).map
        (fun p => (p.type, p.originalContent, p.modifiedContent))
      = alignSpec original modified :=
  computeDiffAux_proj ct original modified 1 1

/-- C3 as stated is false on the primary tokenizer: the Words split keeps
whitespace runs as tokens, so `splitText "a b"` at Words granularity
contains the whitespace token `" "`. -/
theorem C3_counterexample :
    ¬ (∀ t ∈ splitText "a b" ComparisonType.Words, wsFree t = true) := by
  decide

/-- C3 amended: at Words granularity every token of the primary tokenizer
is non-empty (zero-length pieces are dropped), but whitespace runs are kept
as tokens; in the `part_000` variant, whose split has no capturing group,
every token is both non-empty and whitespace-free. -/
theorem C3_words_tokens (s : String) :
    (∀ t ∈ splitText s ComparisonType.Words, t ≠ "") ∧
    (∀ t ∈ splitTextVariant s ComparisonType.Words, t ≠ "" ∧ wsFree t = true) := by
  constructor
  · intro t ht
    exact mem_length_filter_ne_empty ht
  · intro t ht
    refine ⟨mem_length_filter_ne_empty ht, ?_⟩
    have hmem := List.mem_of_mem_filter ht
    rcases List.mem_map.mp hmem with ⟨r, hr, hrt⟩
    have hrr := List.of_mem_filter hr
    have hruns := List.mem_of_mem_filter hr
    obtain ⟨hne, c, hc⟩ := wsRuns_homogeneous s.data r hruns
    cases r with
    | nil => exact absurd rfl hne
    | cons d dsr =>
      simp only [Bool.not_eq_true] at hrr
      subst hrt
      have hdc : jsWhitespace d = c := hc d (by simp)
      have hcfalse : c = false := by
        rw [← hdc]
        simpa using hrr
      subst hcfalse
      show (String.mk (d :: dsr)).data.all (fun a => !jsWhitespace a) = true
      simp only [String.data]
      rw [List.all_eq_true]
      intro a ha
      rw [hc a ha]
      rfl

/-- C3 witness: the token `"a"` of the variant tokenizer on `"a b"` is
non-empty and whitespace-free. -/
theorem C3_words_tokens_witness :
    ("a" ∈ splitTextVariant "a b" ComparisonType.Words) ∧
      ("a" ≠ "" ∧ wsFree "a" = true) :=
  ⟨by decide, (C3_words_tokens "a b").2 "a" (by decide)⟩

/-- C4 as stated is false: at Lines granularity the empty string tokenizes
to a single empty token (JavaScript `"".split("\n")` is `[""]`), not to the
empty sequence. -/
theorem C4_counterexample : splitText "" ComparisonType.Lines ≠ [] := by
  decide

/-- C4 amended: tokenization is total (modelled as a total function), the
empty string yields the empty token sequence at Words and Characters
granularity, but at Lines granularity it yields one empty token. -/
theorem C4_empty_input :
    splitText "" ComparisonType.Words = [] ∧
    splitText "" ComparisonType.Characters = [] ∧
    splitText "" ComparisonType.Lines = [""] := by
  refine ⟨by decide, by decide, by decide⟩

/-- C6: aligning the tokenization of a text with itself classifies every
emitted pair as `unchanged`. -/
theorem C6_self_diff_unchanged (a : String) (g : ComparisonType) :
    ∀ p ∈ computeDiff g (splitText a g) (splitText a g),
      p.type = DiffType.unchanged :=
  fun p hp => computeDiffAux_diag g (splitText a g) 1 1 p hp

/-- C6 witness: the first pair of the self-diff of `"a\nb"` at Lines
granularity is unchanged. -/
theorem C6_self_diff_unchanged_witness :
    ({ type := DiffType.unchanged, originalContent := "a",
       modifiedContent := "a", originalLineNumber := 1,
       modifiedLineNumber := 1 } : DiffLine) ∈
        computeDiff ComparisonType.Lines
          (splitText "a\nb" ComparisonType.Lines)
          (splitText "a\nb" ComparisonType.Lines) ∧
      ({ type := DiffType.unchanged, originalContent := "a",
         modifiedContent := "a", originalLineNumber := 1,
         modifiedLineNumber := 1 } : DiffLine).type = DiffType.unchanged :=
  ⟨by decide, C6_self_diff_unchanged "a\nb" ComparisonType.Lines _ (by decide)⟩

/-- C10: the aligner emits exactly one pair per loop iteration, so the
number of emitted pairs equals the maximum of the two input lengths. -/
theorem C10_output_length (ct : ComparisonType) (original modified : List String) :
    (computeDiff ct original modified).length
      = max original.length modified.length :=
  computeDiffAux_length ct original modified 1 1

/-- C1 as stated is false: at Lines granularity a text can tokenize to an
empty token (here the empty second line of `"a\n"`), which the
remove-empty-placeholders filter also deletes, so the filtered
original-side contents do not reproduce the token sequence. -/
theorem C1_counterexample :
    ((computeDiff ComparisonType.Lines (splitText "a\n" ComparisonType.Lines)
          (splitText "a" ComparisonType.Lines)).map
        (fun p => p.originalContent)).filter (fun s => s ≠ "")
      ≠ splitText "a\n" ComparisonType.Lines := by
  decide

/-- C1 amended: whenever every token of both tokenizations is non-empty
(always the case at Words and Characters granularity, and at Lines
granularity exactly when neither text has an empty line), the original-side
contents of the aligned pairs with empty placeholders removed equal the
original tokenization, and likewise on the modified side: every input token
appears exactly once, in order. -/
theorem C1_token_round_trip (a b : String) (g : ComparisonType)
    (ha : ∀ t ∈ splitText a g, t ≠ "") (hb : ∀ t ∈ splitText b g, t ≠ "") :
    ((computeDiff g (splitText a g) (splitText b g)).map
        (fun p => p.originalContent)).filter (fun s => s ≠ "")
      = splitText a g ∧
    ((computeDiff g (splitText a g) (splitText b g)).map
        (fun p => p.modifiedContent)).filter (fun s => s ≠ "")
      = splitText b g :=
  ⟨computeDiffAux_origContents g (splitText a g) (splitText b g) 1 1 ha,
   computeDiffAux_modContents g (splitText a g) (splitText b g) 1 1 hb⟩

/-- C1 witness: the round trip at Lines granularity on `"a\nb"` versus
`"a\nc"`, whose tokens are all non-empty. -/
theorem C1_token_round_trip_witness :
    (∀ t ∈ splitText "a\nb" ComparisonType.Lines, t ≠ "") ∧
    ((computeDiff ComparisonType.Lines (splitText "a\nb" ComparisonType.Lines)
          (splitText "a\nc" ComparisonType.Lines)).map
        (fun p => p.originalContent)).filter (fun s => s ≠ "")
      = splitText "a\nb" ComparisonType.Lines :=
  ⟨by decide,
   (C1_token_round_trip "a\nb" "a\nc" ComparisonType.Lines
      (by decide) (by decide)).1⟩

/-- C5 as stated is false: at Lines granularity the empty original text
tokenizes to one empty line, so diffing `""` against `"x"` yields a
`modified` pair, not an all-`added` sequence. -/
theorem C5_counterexample :
    ¬ (∀ p ∈ computeDiff ComparisonType.Lines
          (splitText "" ComparisonType.Lines)
          (splitText "x" ComparisonType.Lines),
        p.type = DiffType.added) := by
  decide

/-- C5 amended: at Words and Characters granularity an empty original text
yields all-`added` pairs and an empty modified text yields all-`removed`
pairs (at Lines granularity the empty text contributes an empty token that
pairs as `modified` or `unchanged` instead); when both texts are empty the
component returns the empty sequence through the `diffResult` guard at any
granularity. -/
theorem C5_boundary (g : ComparisonType) (b : String) :
    (g = ComparisonType.Words ∨ g = ComparisonType.Characters →
      (∀ p ∈ computeDiff g (splitText "" g) (splitText b g),
        p.type = DiffType.added) ∧
      (∀ p ∈ computeDiff g (splitText b g) (splitText "" g),
        p.type = DiffType.removed)) ∧
    diffResult "" "" g = [] := by
  constructor
  · intro hg
    have hempty : splitText "" g = [] := by
      rcases hg with h | h <;> subst h <;> decide
    rw [hempty]
    exact ⟨fun p hp => addedRun_all_added g (splitText b g) 1 1 p hp,
      fun p hp => computeDiffAux_all_removed g (splitText b g) 1 1 p hp⟩
  · rfl

/-- C5 witness: at Words granularity, diffing `""` against `"x y"` puts the
first token of the modified side in an `added` pair, and the empty pair of
texts gives an empty block list. -/
theorem C5_boundary_witness :
    (ComparisonType.Words = ComparisonType.Words ∨
      ComparisonType.Words = ComparisonType.Characters) ∧
    (({ type := DiffType.added, originalContent := "", modifiedContent := "x",
        originalLineNumber := 1, modifiedLineNumber := 1 } : DiffLine) ∈
      computeDiff ComparisonType.Words (splitText "" ComparisonType.Words)
        (splitText "x y" ComparisonType.Words)) ∧
    ({ type := DiffType.added, originalContent := "", modifiedContent := "x",
       originalLineNumber := 1, modifiedLineNumber := 1 } : DiffLine).type
      = DiffType.added ∧
    diffResult "" "" ComparisonType.Words = [] :=
  ⟨Or.inl rfl, by decide,
   ((C5_boundary ComparisonType.Words "x y").1 (Or.inl rfl)).1 _ (by decide),
   (C5_boundary ComparisonType.Words "x y").2⟩

/-- C7: concatenating the pair lists of the blocks produced by the grouper,
in block order, reproduces the input pair sequence exactly — no pair is
dropped, duplicated or reordered, and blocks neither overlap nor leave
gaps. -/
theorem C7_group_round_trip (ls : List DiffLine) :
    ((groupDiffBlocks ls).map (fun blk => blk.lines)).flatten = ls := by
  cases ls with
  | nil => rfl
  | cons l ls =>
    rw [groupDiffBlocks, groupAux_flatten]
    rfl

/-- C8: in every diff of two tokenized texts, the position counters of the
emitted pairs start at 1; when the granularity is not Lines they are never
incremented (every pair carries 1 on both sides), and at Lines granularity
the original-side counter of the `k`-th pair is 1 plus the number of
earlier pairs that advanced the original cursor (all but `added` pairs),
and symmetrically the modified-side counter counts all but `removed`
pairs. -/
theorem C8_position_counters (g : ComparisonType) (a b : String) :
    (g ≠ ComparisonType.Lines →
      ∀ p ∈ computeDiff g (splitText a g) (splitText b g),
        p.originalLineNumber = 1 ∧ p.modifiedLineNumber = 1) ∧
    countersOk 1 1
      (computeDiff ComparisonType.Lines (splitText a ComparisonType.Lines)
        (splitText b ComparisonType.Lines)) :=
  ⟨fun hg p hp =>
      computeDiffAux_numbers_const g hg (splitText a g) (splitText b g) 1 1 p hp,
   computeDiffAux_countersOk (splitText a ComparisonType.Lines)
      (splitText b ComparisonType.Lines) 1 1⟩

/-- C8 witness: at Words granularity the single pair of the diff of `"x"`
against `"y"` carries counter 1 on both sides, and at Lines granularity the
first pair of the diff of `"x"` against `"y"` also carries counter 1. -/
theorem C8_position_counters_witness :
    (({ type := DiffType.modified, originalContent := "x",
        modifiedContent := "y", originalLineNumber := 1,
        modifiedLineNumber := 1 } : DiffLine) ∈
      computeDiff ComparisonType.Words (splitText "x" ComparisonType.Words)
        (splitText "y" ComparisonType.Words)) ∧
    ({ type := DiffType.modified, originalContent := "x",
       modifiedContent := "y", originalLineNumber := 1,
       modifiedLineNumber := 1 } : DiffLine).originalLineNumber = 1 ∧
    ((computeDiff ComparisonType.Lines (splitText "x" ComparisonType.Lines)
        (splitText "y" ComparisonType.Lines)).get ⟨0, by decide⟩).originalLineNumber
      = 1 := by
  refine ⟨by decide, ?_, ?_⟩
  · exact ((C8_position_counters ComparisonType.Words "x" "y").1
      (by decide) _ (by decide)).1
  · have h := ((C8_position_counters ComparisonType.Lines "x" "y").2 0
      (by decide)).1
    simpa using h

/-- C9: a rejected clipboard write is caught locally by `handleCopy`: the
interaction returns normally with the user-visible failure notification,
the component state is unchanged, and therefore the computed diff blocks
and statistics are unchanged; a resolved write returns the success
notification. -/
theorem C9_clipboard_failure (st : ComponentState) (text e : String) :
    copyAction st text (ClipboardResult.error e)
      = (st, "Failed to copy to clipboard") ∧
    diffResult (copyAction st text (ClipboardResult.error e)).1.originalSQL
        (copyAction st text (ClipboardResult.error e)).1.modifiedSQL
        (copyAction st text (ClipboardResult.error e)).1.comparisonType
      = diffResult st.originalSQL st.modifiedSQL st.comparisonType ∧
    stats (diffResult (copyAction st text (ClipboardResult.error e)).1.originalSQL
        (copyAction st text (ClipboardResult.error e)).1.modifiedSQL
        (copyAction st text (ClipboardResult.error e)).1.comparisonType)
      = stats (diffResult st.originalSQL st.modifiedSQL st.comparisonType) ∧
    copyAction st text ClipboardResult.ok = (st, "Copied to clipboard!") :=
  ⟨rfl, rfl, rfl, rfl⟩

end SqlDiff
